import Mathlib

/-!
# Verification of the grist GUI / rendering core

A shallow embedding of the grist repository (crates `grist`, `silica`,
`gristmill`) and proofs about it:

* `Grist` — the reentrancy-checked shared cell `Obj<T>` from `src/lib.rs`,
  modelled as a state machine over held read/write guards together with the
  `last_used` diagnostic slot.
* `Quad` — the quad batcher / glyph pipeline from
  `gristmill/src/two/quad.rs` (`QuadRenderer::queue`, `queue_text`,
  `GlyphLayer`, `process_queued_text`).
* `Silica` — the node registry, layout-tree adapter and pointer dispatch
  from `silica/src/lib.rs` (`Gui`, `hit_highlightable_node`,
  `handle_pointer_motion`, `handle_pointer_button`).

Machine floating point (`f32`) is embedded as `ℚ`; the external flexbox
engine (taffy) and text shaping engine (glyph_brush) are external
collaborators and are modelled by their interface contracts.
-/

namespace Grist

/-- A Rust source location (`std::panic::Location`), abstracted to a label. -/
abbrev Location := Nat

/-- State of one `Value<T>` cell: the source locations of the currently held
read guards, the location of the held write guard (if any), and the
`last_used` slot, which the Rust code overwrites on every *successful*
acquisition and never clears. -/
structure ObjState where
  readers : List Location
  writer : Option Location
  lastUsed : Option Location
deriving DecidableEq

/-- The freshly constructed cell (`Value::new`): no guards, `last_used = None`. -/
def initObj : ObjState := { readers := [], writer := none, lastUsed := none }

/-- Result of `Obj::get` / `Obj::get_mut`: either a successful acquisition
(with the updated cell state) or an immediate panic. `panicAt (some l)`
is the `"already borrowed at {l}"` message; `panicAt none` is the
`"unknown error"` message. Acquisition never blocks: these are the only
two outcomes. -/
inductive AcqResult where
  | ok (s : ObjState)
  | panicAt (reported : Option Location)
deriving DecidableEq

/-- `Obj::get` at call site `loc`: `try_read` succeeds exactly when no write
guard is held; on success `last_used` is overwritten with `loc`; on failure
the panic reports the current `last_used`. -/
def ObjState.get (s : ObjState) (loc : Location) : AcqResult :=
  if s.writer.isSome then .panicAt s.lastUsed
  else .ok { s with readers := loc :: s.readers, lastUsed := some loc }

/-- `Obj::get_mut` at call site `loc`: `try_write` succeeds exactly when no
guard at all is held; on success `last_used` is overwritten with `loc`; on
failure the panic reports the current `last_used`. -/
def ObjState.getMut (s : ObjState) (loc : Location) : AcqResult :=
  if s.writer.isSome ∨ ¬ s.readers.isEmpty then .panicAt s.lastUsed
  else .ok { s with writer := some loc, lastUsed := some loc }

/-- One event in a single-threaded usage history of a cell: acquiring a
guard at a source location, or dropping a held guard (Rust guard drops do
not touch `last_used`). -/
inductive ObjOp where
  | get (loc : Location)
  | getMut (loc : Location)
  | dropRead (loc : Location)
  | dropWrite
deriving DecidableEq

/-- One step of a usage history. Returns `none` when the program aborts
(a panicking acquisition) or the event is impossible (dropping a guard
that is not held); the accumulated list records the source locations of
the successful acquisitions, in order. -/
def objStep (s : ObjState) (log : List Location) (op : ObjOp) :
    Option (ObjState × List Location) :=
  match op with
  | .get loc =>
    match s.get loc with
    | .ok s' => some (s', log ++ [loc])
    | .panicAt _ => none
  | .getMut loc =>
    match s.getMut loc with
    | .ok s' => some (s', log ++ [loc])
    | .panicAt _ => none
  | .dropRead loc =>
    if loc ∈ s.readers then some ({ s with readers := s.readers.erase loc }, log)
    else none
  | .dropWrite =>
    match s.writer with
    | some _ => some ({ s with writer := none }, log)
    | none => none

/-- Run a usage history from a given cell state. -/
def objRun : ObjState → List Location → List ObjOp → Option (ObjState × List Location)
  | s, log, [] => some (s, log)
  | s, log, op :: ops =>
    match objStep s log op with
    | some (s', log') => objRun s' log' ops
    | none => none

/-- Ghost well-formedness tying the `last_used` slot to the history:
it equals the location of the most recent successful acquisition, it is
the held write guard's location whenever one is held, and it is populated
whenever any guard is held. -/
def ObjWF (s : ObjState) (log : List Location) : Prop :=
  s.lastUsed = log.getLast? ∧
  (∀ l, s.writer = some l → s.lastUsed = some l) ∧
  ((s.readers ≠ [] ∨ s.writer.isSome) → s.lastUsed.isSome)

theorem objStep_wf {s : ObjState} {log : List Location} {op : ObjOp}
    {s' : ObjState} {log' : List Location}
    (hwf : ObjWF s log) (h : objStep s log op = some (s', log')) : ObjWF s' log' := by
  obtain ⟨h1, h2, h3⟩ := hwf
  cases op with
  | get loc =>
    simp only [objStep, ObjState.get] at h
    by_cases hw : s.writer.isSome
    · rw [if_pos hw] at h
      exact absurd h (by simp)
    · rw [if_neg hw] at h
      simp only [Option.some.injEq, Prod.mk.injEq] at h
      obtain ⟨hs, hl⟩ := h
      subst hs
      subst hl
      refine ⟨by simp, ?_, by simp⟩
      intro l hl2
      have hl3 : s.writer = some l := hl2
      rw [hl3] at hw
      simp at hw
  | getMut loc =>
    simp only [objStep, ObjState.getMut] at h
    by_cases hw : s.writer.isSome ∨ ¬ s.readers.isEmpty
    · rw [if_pos hw] at h
      exact absurd h (by simp)
    · rw [if_neg hw] at h
      simp only [Option.some.injEq, Prod.mk.injEq] at h
      obtain ⟨hs, hl⟩ := h
      subst hs
      subst hl
      refine ⟨by simp, ?_, by simp⟩
      intro l hl2
      have hl3 : some loc = some l := hl2
      simp only [Option.some.injEq] at hl3
      show some loc = some l
      rw [hl3]
  | dropRead loc =>
    simp only [objStep] at h
    by_cases hm : loc ∈ s.readers
    · rw [if_pos hm] at h
      simp only [Option.some.injEq, Prod.mk.injEq] at h
      obtain ⟨hs, hl⟩ := h
      subst hs
      subst hl
      refine ⟨h1, h2, ?_⟩
      intro hne
      apply h3
      rcases hne with hne | hne
      · left
        intro hc
        rw [hc] at hne
        simp at hne
      · right
        exact hne
    · rw [if_neg hm] at h
      exact absurd h (by simp)
  | dropWrite =>
    simp only [objStep] at h
    cases hw : s.writer with
    | none =>
      rw [hw] at h
      exact absurd h (by simp)
    | some l =>
      rw [hw] at h
      simp only [Option.some.injEq, Prod.mk.injEq] at h
      obtain ⟨hs, hl⟩ := h
      subst hs
      subst hl
      refine ⟨h1, ?_, ?_⟩
      · intro l2 hl2
        exact absurd hl2 (by simp)
      · intro hne
        apply h3
        rcases hne with hne | hne
        · left
          exact hne
        · simp at hne

theorem objRun_wf {ops : List ObjOp} :
    ∀ {s : ObjState} {log : List Location} {s' : ObjState} {log' : List Location},
    ObjWF s log → objRun s log ops = some (s', log') → ObjWF s' log' := by
  induction ops with
  | nil =>
    intro s log s' log' hwf h
    simp only [objRun, Option.some.injEq, Prod.mk.injEq] at h
    obtain ⟨hs, hl⟩ := h
    subst hs
    subst hl
    exact hwf
  | cons op ops ih =>
    intro s log s' log' hwf h
    simp only [objRun] at h
    cases hstep : objStep s log op with
    | none =>
      rw [hstep] at h
      exact absurd h (by simp)
    | some p =>
      rw [hstep] at h
      exact ih (objStep_wf hwf hstep) h

theorem initObj_wf : ObjWF initObj [] := by
  refine ⟨by simp [initObj], ?_, ?_⟩
  · intro l hl
    exact absurd hl (by simp [initObj])
  · intro h
    rcases h with h | h
    · exact absurd rfl h
    · simp [initObj] at h

/-- Claim C4, corrected. In any cell state reachable by a usage history:
a shared acquisition succeeds iff no exclusive guard is held, and on
conflict panics immediately naming exactly the held exclusive
acquisition's source location; an exclusive acquisition succeeds iff no
guard at all is held, and on conflict panics immediately naming the
source location of the most recent prior *successful* acquisition (which
is populated, so the `"unknown error"` branch is never taken on a real
conflict) — but that acquisition's guard may already have been released,
so it need not be the held conflicting one. -/
theorem obj_acquire_fail_fast
    (ops : List ObjOp) (s : ObjState) (log : List Location) (loc : Location)
    (h : objRun initObj [] ops = some (s, log)) :
    ((∃ s2, s.get loc = .ok s2) ↔ s.writer = none) ∧
    (∀ wl, s.writer = some wl → s.get loc = .panicAt (some wl)) ∧
    ((∃ s2, s.getMut loc = .ok s2) ↔ (s.writer = none ∧ s.readers = [])) ∧
    ((s.writer.isSome ∨ s.readers ≠ []) →
      s.getMut loc = .panicAt log.getLast? ∧ log.getLast?.isSome) := by
  obtain ⟨h1, h2, h3⟩ := objRun_wf initObj_wf h
  refine ⟨?_, ?_, ?_, ?_⟩
  · constructor
    · rintro ⟨s2, hs2⟩
      unfold ObjState.get at hs2
      by_cases hw : s.writer.isSome
      · rw [if_pos hw] at hs2
        exact absurd hs2 (by simp)
      · exact Option.not_isSome_iff_eq_none.mp hw
    · intro hw
      refine ⟨{ s with readers := loc :: s.readers, lastUsed := some loc }, ?_⟩
      unfold ObjState.get
      rw [if_neg (by simp [hw])]
  · intro wl hw
    unfold ObjState.get
    rw [if_pos (by simp [hw]), h2 wl hw]
  · constructor
    · rintro ⟨s2, hs2⟩
      unfold ObjState.getMut at hs2
      by_cases hw : s.writer.isSome ∨ ¬ s.readers.isEmpty
      · rw [if_pos hw] at hs2
        exact absurd hs2 (by simp)
      · push_neg at hw
        exact ⟨Option.not_isSome_iff_eq_none.mp hw.1, List.isEmpty_iff.mp hw.2⟩
    · rintro ⟨hw, hr⟩
      refine ⟨{ s with writer := some loc, lastUsed := some loc }, ?_⟩
      unfold ObjState.getMut
      rw [if_neg (by simp [hw, hr])]
  · intro hconf
    have hcond : s.writer.isSome ∨ ¬ s.readers.isEmpty := by
      rcases hconf with hc | hc
      · exact Or.inl hc
      · exact Or.inr (by simpa [List.isEmpty_iff] using hc)
    constructor
    · unfold ObjState.getMut
      rw [if_pos hcond, h1]
    · rw [← h1]
      apply h3
      rcases hconf with hc | hc
      · exact Or.inr hc
      · exact Or.inl hc

/-- Witness for `obj_acquire_fail_fast`: a history consisting of one
exclusive acquisition at site 7, then probing acquisitions at site 9. -/
theorem obj_acquire_fail_fast_witness :
    objRun initObj []
      [ObjOp.getMut 7] = some ({ readers := [], writer := some 7, lastUsed := some 7 }, [7]) ∧
    (((∃ s2, ObjState.get { readers := [], writer := some 7, lastUsed := some 7 } 9 = .ok s2) ↔
        ({ readers := [], writer := some 7, lastUsed := some 7 } : ObjState).writer = none) ∧
      (∀ wl, ({ readers := [], writer := some 7, lastUsed := some 7 } : ObjState).writer = some wl →
        ObjState.get { readers := [], writer := some 7, lastUsed := some 7 } 9 = .panicAt (some wl)) ∧
      ((∃ s2, ObjState.getMut { readers := [], writer := some 7, lastUsed := some 7 } 9 = .ok s2) ↔
        (({ readers := [], writer := some 7, lastUsed := some 7 } : ObjState).writer = none ∧
          ({ readers := [], writer := some 7, lastUsed := some 7 } : ObjState).readers = [])) ∧
      ((({ readers := [], writer := some 7, lastUsed := some 7 } : ObjState).writer.isSome ∨
          ({ readers := [], writer := some 7, lastUsed := some 7 } : ObjState).readers ≠ []) →
        ObjState.getMut { readers := [], writer := some 7, lastUsed := some 7 } 9 =
          .panicAt ([7] : List Location).getLast? ∧ ([7] : List Location).getLast?.isSome)) :=
  ⟨by decide, obj_acquire_fail_fast [ObjOp.getMut 7]
    { readers := [], writer := some 7, lastUsed := some 7 } [7] 9 (by decide)⟩

/-- Counterexample to claim C4 as stated: after shared acquisitions at
sites 1 and 2 and release of the site-2 guard, a conflicting exclusive
acquisition at site 3 panics naming site 2 — but the guard acquired at
site 2 is no longer held; the only held conflicting acquisition is the
one from site 1. So the reported location is not that of the prior
*conflicting* acquisition. -/
theorem obj_reported_site_not_conflicting :
    objRun initObj [] [ObjOp.get 1, ObjOp.get 2, ObjOp.dropRead 2] =
      some ({ readers := [1], writer := none, lastUsed := some 2 }, [1, 2]) ∧
    ObjState.getMut { readers := [1], writer := none, lastUsed := some 2 } 3 =
      AcqResult.panicAt (some 2) ∧
    ({ readers := [1], writer := none, lastUsed := some 2 } : ObjState).writer = none ∧
    (2 : Location) ∉ ({ readers := [1], writer := none, lastUsed := some 2 } : ObjState).readers := by
  decide

end Grist

namespace Quad

/-- A GPU texture handle (`miniquad::TextureId`), abstracted to a label. -/
abbrev TextureId := Nat

/-- An RGBA colour; only carried along, never inspected. -/
abbrev Color := ℚ × ℚ × ℚ × ℚ

/-- A rectangle `{position, size}` (`gristmill::two::Rect`), with `f32`
embedded as `ℚ`. -/
structure Rect where
  x : ℚ
  y : ℚ
  w : ℚ
  h : ℚ
deriving DecidableEq

/-- The argument record of `QuadRenderer::queue` (`RenderQuad`). -/
structure RenderQuad where
  texture : Option TextureId
  color : Color
  rect : Rect
  uvRect : Rect
  flipX : Bool
  flipY : Bool
  scroll : Bool
deriving DecidableEq

/-- One accumulated per-instance record (`Quad {rect, uv, color}`). -/
structure QuadInst where
  rect : Rect
  uv : Rect
  color : Color
deriving DecidableEq

/-- `InstanceRange`: a contiguous run `[start, stop)` of quads sharing one
texture, or a reference to one glyph layer. -/
inductive InstanceRange where
  | instances (texture : TextureId) (start stop : Nat)
  | text (layer : Nat)
deriving DecidableEq

/-- `GlyphLayer`: the frame-scoped depth-layer counter with its
`combine` flag. -/
structure GlyphLayer where
  layer : Nat
  combine : Bool
deriving DecidableEq

def GlyphLayer.new : GlyphLayer := { layer := 0, combine := true }

/-- `GlyphLayer::next`: if the run was finished (`combine == false`),
advance to a fresh layer and reopen the run; return the (possibly new)
current layer. -/
def GlyphLayer.next (g : GlyphLayer) : GlyphLayer × Nat :=
  if !g.combine then ({ layer := g.layer + 1, combine := true }, g.layer + 1)
  else (g, g.layer)

/-- `GlyphLayer::finish`: close the current run of consecutive text. -/
def GlyphLayer.finish (g : GlyphLayer) : GlyphLayer := { g with combine := false }

/-- `GlyphLayer::reset`: called at the end of `render`. -/
def GlyphLayer.reset (_ : GlyphLayer) : GlyphLayer := { layer := 0, combine := true }

/-- Rust `f32::round`: round half away from zero. -/
def roundAway (q : ℚ) : ℚ :=
  if q < 0 then -(((⌊-q + 1/2⌋ : ℤ) : ℚ)) else ((⌊q + 1/2⌋ : ℤ) : ℚ)

/-- The CPU-side state of `QuadRenderer`. GPU handles (pipeline, buffers,
textures other than their ids) and the rebuilt per-layer glyph instance
lists are omitted; `glyphTexW/H` is the glyph atlas size, and
`queuedText` records the depth-layer tags forwarded to the shaping
engine by `queue_text`, in order. -/
structure QuadRenderer where
  pixelPerfect : Bool
  instances : List QuadInst
  instanceRanges : List InstanceRange
  screenW : ℚ
  screenH : ℚ
  scrollX : ℚ
  scrollY : ℚ
  scale : ℚ
  whitePixel : TextureId
  glyphLayer : GlyphLayer
  queuedText : List Nat
  glyphTexW : Nat
  glyphTexH : Nat
deriving DecidableEq

/-- `QuadRenderer::new` (the fields kept by the model): empty accumulator
and range list, screen size `Vec2::ONE`, zero scroll, unit scale, a fresh
glyph layer counter. -/
def QuadRenderer.new (pixelPerfect : Bool) (whitePixel : TextureId) (texW texH : Nat) :
    QuadRenderer :=
  { pixelPerfect := pixelPerfect, instances := [], instanceRanges := [],
    screenW := 1, screenH := 1, scrollX := 0, scrollY := 0, scale := 1,
    whitePixel := whitePixel, glyphLayer := GlyphLayer.new, queuedText := [],
    glyphTexW := texW, glyphTexH := texH }

/-- `QuadRenderer::transform`: uniform scale, then (when pixel-perfect)
round the position and floor the size. -/
def QuadRenderer.transform (r : QuadRenderer) (rect : Rect) : Rect :=
  let rect := { x := rect.x * r.scale, y := rect.y * r.scale,
                w := rect.w * r.scale, h := rect.h * r.scale : Rect }
  if r.pixelPerfect then
    { x := roundAway rect.x, y := roundAway rect.y,
      w := ((⌊rect.w⌋ : ℤ) : ℚ), h := ((⌊rect.h⌋ : ℤ) : ℚ) }
  else rect

/-- `quad.texture.unwrap_or(&self.white_pixel).id()`. -/
def QuadRenderer.textureOf (r : QuadRenderer) (q : RenderQuad) : TextureId :=
  q.texture.getD r.whitePixel

/-- The quad's rectangle after transform and (when `quad.scroll`) the
scroll offset — the position at which `queue` would place it. -/
def QuadRenderer.placed (r : QuadRenderer) (q : RenderQuad) : Rect :=
  let rect := r.transform q.rect
  if q.scroll then { rect with x := rect.x - r.scrollX, y := rect.y - r.scrollY } else rect

/-- The instance record `queue` would push: placed rectangle, per-axis
UV flips applied, colour carried through. -/
def QuadRenderer.placedInst (r : QuadRenderer) (q : RenderQuad) : QuadInst :=
  let uv := q.uvRect
  let uv := if q.flipX then { uv with x := uv.x + uv.w, w := -uv.w } else uv
  let uv := if q.flipY then { uv with y := uv.y + uv.h, h := -uv.h } else uv
  { rect := r.placed q, uv := uv, color := q.color }

/-- The tail-range update of `queue`: after the accumulator has grown to
`stop` quads, extend the tail range if it is an `Instances` range with the
same texture, else push a fresh one-quad range. -/
def pushRange (ranges : List InstanceRange) (texture : TextureId) (stop : Nat) :
    List InstanceRange :=
  match ranges.getLast? with
  | some (InstanceRange.instances t start _) =>
    if t = texture then ranges.dropLast ++ [InstanceRange.instances t start stop]
    else ranges ++ [InstanceRange.instances texture (stop - 1) stop]
  | _ => ranges ++ [InstanceRange.instances texture (stop - 1) stop]

/-- `QuadRenderer::queue`: transform; discard on non-positive size; apply
scroll; discard when outside the screen; otherwise close the glyph-layer
run, push the instance and update the tail range. -/
def QuadRenderer.queue (r : QuadRenderer) (q : RenderQuad) : QuadRenderer :=
  if (r.transform q.rect).w ≤ 0 ∨ (r.transform q.rect).h ≤ 0 then r
  else if (r.placed q).x + (r.placed q).w < 0 ∨ (r.placed q).y + (r.placed q).h < 0 ∨
      (r.placed q).x ≥ r.screenW ∨ (r.placed q).y ≥ r.screenH then r
  else
    { r with
      glyphLayer := r.glyphLayer.finish,
      instances := r.instances ++ [r.placedInst q],
      instanceRanges := pushRange r.instanceRanges (r.textureOf q) (r.instances.length + 1) }

/-- Whether `queue` keeps (appends) the quad rather than discarding it:
the conjunction of the two early-return conditions being false. -/
def QuadRenderer.keeps (r : QuadRenderer) (q : RenderQuad) : Bool :=
  decide (¬ ((r.transform q.rect).w ≤ 0 ∨ (r.transform q.rect).h ≤ 0) ∧
    ¬ ((r.placed q).x + (r.placed q).w < 0 ∨ (r.placed q).y + (r.placed q).h < 0 ∨
      (r.placed q).x ≥ r.screenW ∨ (r.placed q).y ≥ r.screenH))

/-- `QuadRenderer::queue_text` (the renderer-state part of
`Renderer::queue_text`): obtain the next glyph layer, tag the forwarded
section with it, and open a new `Text` range unless the tail range is
already `Text`. Returns the assigned layer. -/
def QuadRenderer.queueText (r : QuadRenderer) : QuadRenderer × Nat :=
  let p := r.glyphLayer.next
  let ranges :=
    match r.instanceRanges.getLast? with
    | some (InstanceRange.text _) => r.instanceRanges
    | _ => r.instanceRanges ++ [InstanceRange.text p.2]
  ({ r with
      glyphLayer := p.1,
      queuedText := r.queuedText ++ [p.2],
      instanceRanges := ranges }, p.2)

theorem queue_of_not_keeps (r : QuadRenderer) (q : RenderQuad)
    (h : r.keeps q = false) : r.queue q = r := by
  unfold QuadRenderer.keeps at h
  rw [decide_eq_false_iff_not, not_and_or, not_not, not_not] at h
  unfold QuadRenderer.queue
  rcases h with h | h
  · rw [if_pos h]
  · by_cases h1 : (r.transform q.rect).w ≤ 0 ∨ (r.transform q.rect).h ≤ 0
    · rw [if_pos h1]
    · rw [if_neg h1, if_pos h]

theorem queue_of_keeps (r : QuadRenderer) (q : RenderQuad)
    (h : r.keeps q = true) :
    r.queue q = { r with
      glyphLayer := r.glyphLayer.finish,
      instances := r.instances ++ [r.placedInst q],
      instanceRanges := pushRange r.instanceRanges (r.textureOf q) (r.instances.length + 1) } := by
  unfold QuadRenderer.keeps at h
  rw [decide_eq_true_iff] at h
  unfold QuadRenderer.queue
  rw [if_neg h.1, if_neg h.2]

theorem keeps_queue (r : QuadRenderer) (p q : RenderQuad) :
    (r.queue p).keeps q = r.keeps q := by
  cases hk : r.keeps p with
  | false => rw [queue_of_not_keeps r p hk]
  | true =>
    rw [queue_of_keeps r p hk]
    rfl

theorem textureOf_queue (r : QuadRenderer) (p q : RenderQuad) :
    (r.queue p).textureOf q = r.textureOf q := by
  cases hk : r.keeps p with
  | false => rw [queue_of_not_keeps r p hk]
  | true =>
    rw [queue_of_keeps r p hk]
    rfl

theorem keeps_queueText (r : QuadRenderer) (q : RenderQuad) :
    (r.queueText).1.keeps q = r.keeps q := rfl

theorem queue_step_len (r : QuadRenderer) (q : RenderQuad) (h : r.keeps q = true) :
    (r.queue q).instances.length = r.instances.length + 1 := by
  rw [queue_of_keeps r q h]
  simp

theorem queue_step_ranges (r : QuadRenderer) (q : RenderQuad) (h : r.keeps q = true) :
    (r.queue q).instanceRanges =
      pushRange r.instanceRanges (r.textureOf q) (r.instances.length + 1) := by
  rw [queue_of_keeps r q h]

/-- Claim C3. Starting from an empty frame (empty accumulator and range
list), four `queue` calls whose quads all survive, carrying textures
`A, A, B, A` with `A ≠ B` and no `queue_text` in between, produce exactly
the ranges `Instances(A, [0,2))`, `Instances(B, [2,3))`,
`Instances(A, [3,4))`: a quad extends the tail range iff the tail is an
`Instances` range with the same texture, so the two `A` runs are never
merged across the intervening `B`. -/
theorem queue_batching_AABA (r : QuadRenderer) (q1 q2 q3 q4 : RenderQuad) (A B : TextureId)
    (hi : r.instances = []) (hr : r.instanceRanges = [])
    (hAB : A ≠ B)
    (ht1 : r.textureOf q1 = A) (ht2 : r.textureOf q2 = A)
    (ht3 : r.textureOf q3 = B) (ht4 : r.textureOf q4 = A)
    (hk1 : r.keeps q1 = true) (hk2 : r.keeps q2 = true)
    (hk3 : r.keeps q3 = true) (hk4 : r.keeps q4 = true) :
    ((((r.queue q1).queue q2).queue q3).queue q4).instanceRanges =
      [InstanceRange.instances A 0 2, InstanceRange.instances B 2 3,
       InstanceRange.instances A 3 4] ∧
    ((((r.queue q1).queue q2).queue q3).queue q4).instances.length = 4 := by
  have k2 : (r.queue q1).keeps q2 = true := by rw [keeps_queue]; exact hk2
  have k3 : ((r.queue q1).queue q2).keeps q3 = true := by rw [keeps_queue, keeps_queue]; exact hk3
  have k4 : (((r.queue q1).queue q2).queue q3).keeps q4 = true := by
    rw [keeps_queue, keeps_queue, keeps_queue]; exact hk4
  have t2 : (r.queue q1).textureOf q2 = A := by rw [textureOf_queue]; exact ht2
  have t3 : ((r.queue q1).queue q2).textureOf q3 = B := by
    rw [textureOf_queue, textureOf_queue]; exact ht3
  have t4 : (((r.queue q1).queue q2).queue q3).textureOf q4 = A := by
    rw [textureOf_queue, textureOf_queue, textureOf_queue]; exact ht4
  have l1 : (r.queue q1).instances.length = 1 := by rw [queue_step_len r q1 hk1, hi]; rfl
  have g1 : (r.queue q1).instanceRanges = [InstanceRange.instances A 0 1] := by
    rw [queue_step_ranges r q1 hk1, hr, ht1, hi]
    rfl
  have l2 : ((r.queue q1).queue q2).instances.length = 2 := by
    rw [queue_step_len _ q2 k2, l1]
  have g2 : ((r.queue q1).queue q2).instanceRanges = [InstanceRange.instances A 0 2] := by
    rw [queue_step_ranges _ q2 k2, t2, g1, l1]
    simp [pushRange]
  have l3 : (((r.queue q1).queue q2).queue q3).instances.length = 3 := by
    rw [queue_step_len _ q3 k3, l2]
  have g3 : (((r.queue q1).queue q2).queue q3).instanceRanges =
      [InstanceRange.instances A 0 2, InstanceRange.instances B 2 3] := by
    rw [queue_step_ranges _ q3 k3, t3, g2, l2]
    simp [pushRange, hAB]
  have l4 : ((((r.queue q1).queue q2).queue q3).queue q4).instances.length = 4 := by
    rw [queue_step_len _ q4 k4, l3]
  have g4 : ((((r.queue q1).queue q2).queue q3).queue q4).instanceRanges =
      [InstanceRange.instances A 0 2, InstanceRange.instances B 2 3,
       InstanceRange.instances A 3 4] := by
    rw [queue_step_ranges _ q4 k4, t4, g3, l3]
    simp [pushRange, Ne.symm hAB]
  exact ⟨g4, l4⟩

/-- A surviving demo quad: unit rectangle at the origin. -/
def unitQuad (t : Option TextureId) : RenderQuad :=
  { texture := t, color := (1, 1, 1, 1), rect := ⟨0, 0, 1, 1⟩, uvRect := ⟨0, 0, 1, 1⟩,
    flipX := false, flipY := false, scroll := true }

theorem keeps_new_unitQuad (t : Option TextureId) :
    (QuadRenderer.new false 0 256 256).keeps (unitQuad t) = true := by
  norm_num [QuadRenderer.keeps, QuadRenderer.new, QuadRenderer.transform, QuadRenderer.placed,
    unitQuad]

/-- Witness for `queue_batching_AABA`: textures 5, 5, 6, 5 on a fresh
renderer. -/
theorem queue_batching_AABA_witness :
    (((((QuadRenderer.new false 0 256 256).queue (unitQuad (some 5))).queue
        (unitQuad (some 5))).queue (unitQuad (some 6))).queue (unitQuad (some 5))).instanceRanges =
      [InstanceRange.instances 5 0 2, InstanceRange.instances 6 2 3,
       InstanceRange.instances 5 3 4] ∧
    (((((QuadRenderer.new false 0 256 256).queue (unitQuad (some 5))).queue
        (unitQuad (some 5))).queue (unitQuad (some 6))).queue (unitQuad (some 5))).instances.length = 4 :=
  queue_batching_AABA (QuadRenderer.new false 0 256 256)
    (unitQuad (some 5)) (unitQuad (some 5)) (unitQuad (some 6)) (unitQuad (some 5)) 5 6
    rfl rfl (by decide) rfl rfl rfl rfl (keeps_new_unitQuad (some 5)) (keeps_new_unitQuad (some 5))
    (keeps_new_unitQuad (some 6)) (keeps_new_unitQuad (some 5))

/-- The closed interval `[lo, lo + len]` misses every point of the
half-open interval `[0, bound)`. -/
def outsideAxis (lo len bound : ℚ) : Prop :=
  ∀ t : ℚ, lo ≤ t → t ≤ lo + len → ¬ (0 ≤ t ∧ t < bound)

/-- The rectangle lies fully outside the half-open viewport
`[0, screenW) × [0, screenH)` on at least one axis. -/
def fullyOutside (r : QuadRenderer) (rect : Rect) : Prop :=
  outsideAxis rect.x rect.w r.screenW ∨ outsideAxis rect.y rect.h r.screenH

theorem outsideAxis_of_pos (lo len bound : ℚ) (hlen : 0 < len) (hb : 0 < bound)
    (h : outsideAxis lo len bound) : lo + len < 0 ∨ bound ≤ lo := by
  by_contra hc
  push_neg at hc
  obtain ⟨h1, h2⟩ := hc
  exact h (max lo 0) (le_max_left _ _) (max_le (by linarith) h1)
    ⟨le_max_right _ _, max_lt h2 hb⟩

/-- Claim C7. On a viewport of positive size, a `queue` call whose quad —
after the scale/pixel-snap transform and the scroll offset — lies fully
outside the half-open viewport `[0, screen_size)` on either axis leaves
the renderer state (in particular the quad accumulator and the range
list) entirely unchanged. -/
theorem queue_discards_offscreen (r : QuadRenderer) (q : RenderQuad)
    (hW : 0 < r.screenW) (hH : 0 < r.screenH)
    (hout : fullyOutside r (r.placed q)) :
    r.queue q = r := by
  unfold QuadRenderer.queue
  by_cases h1 : (r.transform q.rect).w ≤ 0 ∨ (r.transform q.rect).h ≤ 0
  · rw [if_pos h1]
  · rw [if_neg h1]
    push_neg at h1
    obtain ⟨hw, hh⟩ := h1
    have hpw : (r.placed q).w = (r.transform q.rect).w := by
      unfold QuadRenderer.placed
      split <;> rfl
    have hph : (r.placed q).h = (r.transform q.rect).h := by
      unfold QuadRenderer.placed
      split <;> rfl
    rcases hout with hx | hy
    · rcases outsideAxis_of_pos _ _ _ (by rw [hpw]; exact hw) hW hx with hc | hc
      · rw [if_pos (Or.inl hc)]
      · rw [if_pos (Or.inr (Or.inr (Or.inl hc)))]
    · rcases outsideAxis_of_pos _ _ _ (by rw [hph]; exact hh) hH hy with hc | hc
      · rw [if_pos (Or.inr (Or.inl hc))]
      · rw [if_pos (Or.inr (Or.inr (Or.inr hc)))]

/-- A renderer with an 800×600 viewport. -/
def demoRenderer : QuadRenderer :=
  { QuadRenderer.new false 0 256 256 with screenW := 800, screenH := 600 }

/-- A quad strictly left of the viewport after transform and scroll. -/
def offscreenQuad : RenderQuad :=
  { texture := none, color := (1, 1, 1, 1), rect := ⟨-10, 5, 5, 5⟩, uvRect := ⟨0, 0, 1, 1⟩,
    flipX := false, flipY := false, scroll := true }

/-- Witness for `queue_discards_offscreen`. -/
theorem queue_discards_offscreen_witness :
    (0 : ℚ) < demoRenderer.screenW ∧ (0 : ℚ) < demoRenderer.screenH ∧
    fullyOutside demoRenderer (demoRenderer.placed offscreenQuad) ∧
    demoRenderer.queue offscreenQuad = demoRenderer := by
  have hplaced : demoRenderer.placed offscreenQuad = ⟨-10, 5, 5, 5⟩ := by
    norm_num [demoRenderer, QuadRenderer.new, QuadRenderer.placed, QuadRenderer.transform,
      offscreenQuad]
  have hout : fullyOutside demoRenderer (demoRenderer.placed offscreenQuad) := by
    rw [hplaced]
    left
    intro t h1 h2 h3
    have hsw : (-10 : ℚ) + 5 = -5 := by norm_num
    rw [hsw] at h2
    linarith [h3.1]
  have hW : (0 : ℚ) < demoRenderer.screenW := by norm_num [demoRenderer, QuadRenderer.new]
  have hH : (0 : ℚ) < demoRenderer.screenH := by norm_num [demoRenderer, QuadRenderer.new]
  exact ⟨hW, hH, hout, queue_discards_offscreen demoRenderer offscreenQuad hW hH hout⟩

theorem foldl_queue_discarded (r : QuadRenderer) :
    ∀ qs : List RenderQuad, (∀ p ∈ qs, r.keeps p = false) →
    qs.foldl QuadRenderer.queue r = r := by
  intro qs
  induction qs with
  | nil => intro _; rfl
  | cons p ps ih =>
    intro h
    simp only [List.foldl_cons]
    rw [queue_of_not_keeps r p (h p (List.mem_cons_self p ps))]
    exact ih (fun x hx => h x (List.mem_cons_of_mem p hx))

theorem queueText_twice (r : QuadRenderer) :
    ((r.queueText).1.queueText).2 = (r.queueText).2 := by
  unfold QuadRenderer.queueText GlyphLayer.next
  cases hc : r.glyphLayer.combine <;> simp [hc]

/-- Claim C10. A `queue` call whose quad is discarded (non-positive
transformed size, or fully outside the viewport — i.e. `keeps` is false)
leaves the renderer state unchanged, and in particular does not end the
current glyph-layer run: two `queue_text` calls separated only by
discarded `queue` calls are assigned the same layer, because
`GlyphLayer::finish` runs only when a quad is actually appended. -/
theorem discarded_quads_preserve_layer (r : QuadRenderer) (q : RenderQuad)
    (qs : List RenderQuad)
    (hq : r.keeps q = false)
    (hqs : ∀ p ∈ qs, (r.queueText).1.keeps p = false) :
    r.queue q = r ∧
    qs.foldl QuadRenderer.queue (r.queueText).1 = (r.queueText).1 ∧
    ((qs.foldl QuadRenderer.queue (r.queueText).1).queueText).2 = (r.queueText).2 := by
  have hfold := foldl_queue_discarded (r.queueText).1 qs hqs
  refine ⟨queue_of_not_keeps r q hq, hfold, ?_⟩
  rw [hfold]
  exact queueText_twice r

theorem glyphLayer_layer_queue (r : QuadRenderer) (q : RenderQuad) :
    (r.queue q).glyphLayer.layer = r.glyphLayer.layer := by
  cases hk : r.keeps q with
  | false => rw [queue_of_not_keeps r q hk]
  | true =>
    rw [queue_of_keeps r q hk]
    rfl

theorem glyphLayer_combine_queue_keeps (r : QuadRenderer) (q : RenderQuad)
    (h : r.keeps q = true) : (r.queue q).glyphLayer.combine = false := by
  rw [queue_of_keeps r q h]
  rfl

theorem queueText_combine (r : QuadRenderer) : (r.queueText).1.glyphLayer.combine = true := by
  unfold QuadRenderer.queueText GlyphLayer.next
  cases hc : r.glyphLayer.combine <;> simp [hc]

theorem queueText_layer_eq (r : QuadRenderer) :
    (r.queueText).1.glyphLayer.layer = (r.queueText).2 := by
  unfold QuadRenderer.queueText GlyphLayer.next
  cases hc : r.glyphLayer.combine <;> simp [hc]

theorem queueText_layer_ge (r : QuadRenderer) : r.glyphLayer.layer ≤ (r.queueText).2 := by
  unfold QuadRenderer.queueText GlyphLayer.next
  cases hc : r.glyphLayer.combine <;> simp [hc]

theorem queueText_assign (r : QuadRenderer) :
    (r.queueText).2 =
      if r.glyphLayer.combine then r.glyphLayer.layer else r.glyphLayer.layer + 1 := by
  unfold QuadRenderer.queueText GlyphLayer.next
  cases hc : r.glyphLayer.combine <;> simp [hc]

/-- One frame-building call into the renderer: a `queue` call (with its
quad) or a `queue_text` call. -/
inductive QOp where
  | quad (q : RenderQuad)
  | text
deriving DecidableEq

/-- Run a sequence of frame-building calls; the second component lists
the glyph layers assigned to the `queue_text` calls, in call order. -/
def runOps : QuadRenderer → List QOp → QuadRenderer × List Nat
  | r, [] => (r, [])
  | r, QOp.quad q :: ops => runOps (r.queue q) ops
  | r, QOp.text :: ops =>
    ((runOps (r.queueText).1 ops).1, (r.queueText).2 :: (runOps (r.queueText).1 ops).2)

/-- Ghost history summary: `some true` when the most recent *effective*
call was a `queue_text`, `some false` when it was a `queue` whose quad was
actually appended, and the accumulator's start value when no effective
call happened. A `queue` call whose quad is discarded leaves it
unchanged. -/
def lastEff : QuadRenderer → List QOp → Option Bool → Option Bool
  | _, [], acc => acc
  | r, QOp.quad q :: ops, acc =>
    lastEff (r.queue q) ops (if r.keeps q then some false else acc)
  | r, QOp.text :: ops, _ => lastEff (r.queueText).1 ops (some true)

theorem runOps_mem_ge (ops : List QOp) :
    ∀ (r : QuadRenderer) (l : Nat), l ∈ (runOps r ops).2 → r.glyphLayer.layer ≤ l := by
  induction ops with
  | nil =>
    intro r l h
    simp [runOps] at h
  | cons op ops ih =>
    intro r l h
    cases op with
    | quad q =>
      simp only [runOps] at h
      have := ih (r.queue q) l h
      rwa [glyphLayer_layer_queue] at this
    | text =>
      simp only [runOps, List.mem_cons] at h
      rcases h with h | h
      · rw [h]
        exact queueText_layer_ge r
      · have := ih (r.queueText).1 l h
        rw [queueText_layer_eq] at this
        exact le_trans (queueText_layer_ge r) this

theorem runOps_chain (ops : List QOp) :
    ∀ r : QuadRenderer, List.Chain' (· ≤ ·) (runOps r ops).2 := by
  induction ops with
  | nil =>
    intro r
    simp [runOps]
  | cons op ops ih =>
    intro r
    cases op with
    | quad q => simpa only [runOps] using ih (r.queue q)
    | text =>
      simp only [runOps]
      rw [List.chain'_cons']
      refine ⟨?_, ih (r.queueText).1⟩
      intro b hb
      have hmem : b ∈ (runOps (r.queueText).1 ops).2 := List.mem_of_mem_head? hb
      have := runOps_mem_ge ops (r.queueText).1 b hmem
      rw [queueText_layer_eq] at this
      exact this

theorem lastEff_combine (ops : List QOp) :
    ∀ (r : QuadRenderer) (acc : Option Bool),
    (acc = some false ↔ r.glyphLayer.combine = false) →
    (lastEff r ops acc = some false ↔ (runOps r ops).1.glyphLayer.combine = false) := by
  induction ops with
  | nil =>
    intro r acc h
    simpa [lastEff, runOps] using h
  | cons op ops ih =>
    intro r acc h
    cases op with
    | quad q =>
      simp only [lastEff, runOps]
      apply ih
      cases hk : r.keeps q with
      | true =>
        rw [if_pos rfl, glyphLayer_combine_queue_keeps r q hk]
        simp
      | false =>
        rw [if_neg (by simp), queue_of_not_keeps r q hk]
        exact h
    | text =>
      simp only [lastEff, runOps]
      apply ih
      rw [queueText_combine]
      simp

/-- Claim C6, corrected. Over any frame (a sequence of `queue` /
`queue_text` calls started with an open glyph-layer run, as after
`reset`): the layers assigned to the `queue_text` calls are monotonically
non-decreasing; and the next `queue_text` reuses the current layer unless
the most recent *effective* call was an actually-appended quad — in which
case it advances to the strictly larger `layer + 1`. (A `queue` call
whose quad was discarded does not end the run, so "immediately preceding
queue call" in the spec must be read as "immediately preceding effective
queue call".) -/
theorem queue_text_layer_rule (r : QuadRenderer) (ops : List QOp)
    (hc : r.glyphLayer.combine = true) :
    List.Chain' (· ≤ ·) (runOps r ops).2 ∧
    (((runOps r ops).1.queueText).2 =
      if lastEff r ops none = some false
      then (runOps r ops).1.glyphLayer.layer + 1
      else (runOps r ops).1.glyphLayer.layer) := by
  refine ⟨runOps_chain ops r, ?_⟩
  have hiff := lastEff_combine ops r none (by simp [hc])
  rw [queueText_assign]
  by_cases hl : lastEff r ops none = some false
  · rw [if_pos hl, hiff.mp hl]
    simp
  · rw [if_neg hl]
    have hcb : (runOps r ops).1.glyphLayer.combine = true := by
      cases hcb2 : (runOps r ops).1.glyphLayer.combine with
      | false => exact absurd (hiff.mpr hcb2) hl
      | true => rfl
    rw [hcb]
    simp

/-- Witness for `queue_text_layer_rule`: text, an appended quad, text. -/
theorem queue_text_layer_rule_witness :
    (QuadRenderer.new false 0 256 256).glyphLayer.combine = true ∧
    (List.Chain' (· ≤ ·)
      (runOps (QuadRenderer.new false 0 256 256)
        [QOp.text, QOp.quad (unitQuad none), QOp.text]).2 ∧
    (((runOps (QuadRenderer.new false 0 256 256)
        [QOp.text, QOp.quad (unitQuad none), QOp.text]).1.queueText).2 =
      if lastEff (QuadRenderer.new false 0 256 256)
          [QOp.text, QOp.quad (unitQuad none), QOp.text] none = some false
      then (runOps (QuadRenderer.new false 0 256 256)
        [QOp.text, QOp.quad (unitQuad none), QOp.text]).1.glyphLayer.layer + 1
      else (runOps (QuadRenderer.new false 0 256 256)
        [QOp.text, QOp.quad (unitQuad none), QOp.text]).1.glyphLayer.layer)) :=
  ⟨rfl, queue_text_layer_rule (QuadRenderer.new false 0 256 256)
    [QOp.text, QOp.quad (unitQuad none), QOp.text] rfl⟩

/-- A quad of zero size, discarded by the first early return of `queue`. -/
def zeroQuad : RenderQuad :=
  { texture := none, color := (1, 1, 1, 1), rect := ⟨0, 0, 0, 0⟩, uvRect := ⟨0, 0, 1, 1⟩,
    flipX := false, flipY := false, scroll := true }

theorem keeps_new_zeroQuad :
    (QuadRenderer.new false 0 256 256).keeps zeroQuad = false := by
  norm_num [QuadRenderer.keeps, QuadRenderer.new, QuadRenderer.transform, QuadRenderer.placed,
    zeroQuad]

/-- Witness for `discarded_quads_preserve_layer`. -/
theorem discarded_quads_preserve_layer_witness :
    (QuadRenderer.new false 0 256 256).queue zeroQuad = QuadRenderer.new false 0 256 256 ∧
    [zeroQuad].foldl QuadRenderer.queue ((QuadRenderer.new false 0 256 256).queueText).1 =
      ((QuadRenderer.new false 0 256 256).queueText).1 ∧
    (([zeroQuad].foldl QuadRenderer.queue
        ((QuadRenderer.new false 0 256 256).queueText).1).queueText).2 =
      ((QuadRenderer.new false 0 256 256).queueText).2 :=
  discarded_quads_preserve_layer (QuadRenderer.new false 0 256 256) zeroQuad [zeroQuad]
    keeps_new_zeroQuad
    (fun p hp => by
      rw [List.mem_singleton] at hp
      subst hp
      rw [keeps_queueText]
      exact keeps_new_zeroQuad)

/-- Counterexample to claim C6 as stated: in the call sequence
`queue_text; queue(zero-size quad); queue_text`, the queue call
immediately preceding the second `queue_text` is a quad call, not a text
call, so the claim requires the second assignment to advance to a
strictly larger layer — but the code assigns layer 0 to both text calls,
because the discarded quad never ran `GlyphLayer::finish`. -/
theorem text_layer_reused_across_quad_call :
    (runOps (QuadRenderer.new false 0 256 256) [QOp.text, QOp.quad zeroQuad, QOp.text]).2 =
      [0, 0] := by
  have h1 : ((QuadRenderer.new false 0 256 256).queueText).1.keeps zeroQuad = false := by
    rw [keeps_queueText]
    exact keeps_new_zeroQuad
  simp only [runOps]
  rw [queue_of_not_keeps _ _ h1]
  rfl

/-- Atlas texture dimensions (width, height). -/
abbrev Dims := Nat × Nat

/-- Outcome of a successful `process_queued`: fresh instance vertices
(`BrushAction::Draw`) or nothing changed (`BrushAction::ReDraw`); the
vertex payload is not needed here. -/
inductive BrushAction where
  | draw
  | redraw
deriving DecidableEq

/-- The external text shaping/cache engine's `process_queued` (an external
collaborator, modelled by its interface contract): within one retry loop
of `process_queued_text` the queued sections are fixed, so the atlas size
is the only loop-varying input. `Except.error d` is
`BrushError::TextureTooSmall` with suggested size `d`. -/
abbrev BrushEngine := Dims → Except Dims BrushAction

/-- The retry loop of `QuadRenderer::process_queued_text`, with explicit
fuel (the Rust loop is unbounded). On `TextureTooSmall` the atlas is
recreated at exactly the suggested size and processing retried. Returns
the atlas size at success, the sizes of the reallocations performed, in
order, and the final action; `none` models not reaching success within
`fuel` iterations. -/
def processLoop (engine : BrushEngine) : Nat → Dims → Option (Dims × List Dims × BrushAction)
  | 0, _ => none
  | fuel+1, d =>
    match engine d with
    | Except.ok a => some (d, [], a)
    | Except.error sugg =>
      match processLoop engine fuel sugg with
      | some (df, log, a) => some (df, sugg :: log, a)
      | none => none

/-- The atlas size after `k` suggestion steps from `d`, absorbing at the
first success. -/
def suggChain (engine : BrushEngine) : Nat → Dims → Dims
  | 0, d => d
  | k+1, d =>
    match engine d with
    | Except.ok _ => d
    | Except.error sugg => suggChain engine k sugg

/-- The reallocation sizes the loop performs in its first `k` steps when
started at `d`. -/
def reallocs (engine : BrushEngine) : Nat → Dims → List Dims
  | 0, _ => []
  | k+1, d =>
    match engine d with
    | Except.ok _ => []
    | Except.error sugg => sugg :: reallocs engine k sugg

/-- Each size in the list is exactly the engine's suggestion for the size
preceding it. -/
def suggestedFrom (engine : BrushEngine) : Dims → List Dims → Prop
  | _, [] => True
  | d, s :: rest => engine d = Except.error s ∧ suggestedFrom engine s rest

/-- The renderer-state effect of `process_queued_text`: run the retry
loop from the current atlas size, and record the final atlas size (the
`Ok` and `ReDraw` handling of the instance vertices is outside the
model). There is no error outcome other than running out of fuel:
`TextureTooSmall` is never surfaced. -/
def QuadRenderer.processQueuedText (r : QuadRenderer) (engine : BrushEngine) (fuel : Nat) :
    Option (QuadRenderer × List Dims) :=
  match processLoop engine fuel (r.glyphTexW, r.glyphTexH) with
  | some (d, log, _) => some ({ r with glyphTexW := d.1, glyphTexH := d.2 }, log)
  | none => none

theorem processLoop_reaches_ok (engine : BrushEngine) :
    ∀ (k : Nat) (d : Dims) (a : BrushAction),
    engine (suggChain engine k d) = Except.ok a →
    ∀ fuel, k < fuel →
    processLoop engine fuel d = some (suggChain engine k d, reallocs engine k d, a) := by
  intro k
  induction k with
  | zero =>
    intro d a hok fuel hf
    cases fuel with
    | zero => exact absurd hf (by omega)
    | succ f =>
      simp only [suggChain] at hok
      simp [processLoop, suggChain, reallocs, hok]
  | succ k ih =>
    intro d a hok fuel hf
    cases fuel with
    | zero => exact absurd hf (by omega)
    | succ f =>
      cases he : engine d with
      | ok a0 =>
        have : a0 = a := by
          simp only [suggChain, he] at hok
          exact (Except.ok.injEq _ _).mp hok
        subst this
        simp [processLoop, suggChain, reallocs, he]
      | error sugg =>
        have hk : engine (suggChain engine k sugg) = Except.ok a := by
          simpa only [suggChain, he] using hok
        have hrec := ih sugg a hk f (by omega)
        simp [processLoop, suggChain, reallocs, he, hrec]

theorem reallocs_suggested (engine : BrushEngine) :
    ∀ (k : Nat) (d : Dims), suggestedFrom engine d (reallocs engine k d) := by
  intro k
  induction k with
  | zero =>
    intro d
    simp [reallocs, suggestedFrom]
  | succ k ih =>
    intro d
    cases he : engine d with
    | ok a => simp [reallocs, he, suggestedFrom]
    | error sugg =>
      simp only [reallocs, he, suggestedFrom]
      exact ⟨trivial, ih sugg⟩

/-- Claim C8. If the shaping engine reports success after `k` suggestion
steps from the current atlas size, then `process_queued_text` (with any
fuel above `k`) terminates successfully: it never surfaces an error,
every `TextureTooSmall` report along the way was handled by reallocating
the atlas at exactly the suggested size and retrying, and the final
atlas size is the first successful size of the suggestion chain. -/
theorem process_queued_text_recovers (r : QuadRenderer) (engine : BrushEngine)
    (k fuel : Nat) (a : BrushAction)
    (hok : engine (suggChain engine k (r.glyphTexW, r.glyphTexH)) = Except.ok a)
    (hfuel : k < fuel) :
    r.processQueuedText engine fuel =
      some ({ r with
        glyphTexW := (suggChain engine k (r.glyphTexW, r.glyphTexH)).1,
        glyphTexH := (suggChain engine k (r.glyphTexW, r.glyphTexH)).2 },
        reallocs engine k (r.glyphTexW, r.glyphTexH)) ∧
    suggestedFrom engine (r.glyphTexW, r.glyphTexH)
      (reallocs engine k (r.glyphTexW, r.glyphTexH)) := by
  constructor
  · unfold QuadRenderer.processQueuedText
    rw [processLoop_reaches_ok engine k _ a hok fuel hfuel]
  · exact reallocs_suggested engine k _

/-- A demo engine: too small below width 512, succeeds from 512 up. -/
def demoEngine : BrushEngine := fun d =>
  if d.1 < 512 then Except.error (512, 512) else Except.ok BrushAction.redraw

/-- Witness for `process_queued_text_recovers`: the 256×256 atlas is
resized once to the suggested 512×512 and the second attempt succeeds. -/
theorem process_queued_text_recovers_witness :
    demoEngine (suggChain demoEngine 1
      ((QuadRenderer.new false 0 256 256).glyphTexW,
       (QuadRenderer.new false 0 256 256).glyphTexH)) = Except.ok BrushAction.redraw ∧
    (1 : Nat) < 2 ∧
    ((QuadRenderer.new false 0 256 256).processQueuedText demoEngine 2 =
      some ({ QuadRenderer.new false 0 256 256 with
        glyphTexW := (suggChain demoEngine 1
          ((QuadRenderer.new false 0 256 256).glyphTexW,
           (QuadRenderer.new false 0 256 256).glyphTexH)).1,
        glyphTexH := (suggChain demoEngine 1
          ((QuadRenderer.new false 0 256 256).glyphTexW,
           (QuadRenderer.new false 0 256 256).glyphTexH)).2 },
        reallocs demoEngine 1
          ((QuadRenderer.new false 0 256 256).glyphTexW,
           (QuadRenderer.new false 0 256 256).glyphTexH)) ∧
    suggestedFrom demoEngine
      ((QuadRenderer.new false 0 256 256).glyphTexW,
       (QuadRenderer.new false 0 256 256).glyphTexH)
      (reallocs demoEngine 1
        ((QuadRenderer.new false 0 256 256).glyphTexW,
         (QuadRenderer.new false 0 256 256).glyphTexH))) :=
  ⟨rfl, by omega,
    process_queued_text_recovers (QuadRenderer.new false 0 256 256) demoEngine 1 2
      BrushAction.redraw rfl (by omega)⟩

end Quad

namespace Silica

/-- A layout-tree node handle (`taffy::NodeId`), abstracted to a label. -/
abbrev NodeId := Nat

/-- A small association map with `NodeId` keys, standing in for the
`HashMap`s of `Gui` and the slot maps of the layout engine. -/
abbrev NMap (α : Type) := List (NodeId × α)

def nmGet {α : Type} : NMap α → NodeId → Option α
  | [], _ => none
  | (k2, v) :: rest, k => if k2 = k then some v else nmGet rest k

/-- `HashMap::insert`: replace the entry if the key is present, else add it. -/
def nmInsert {α : Type} : NMap α → NodeId → α → NMap α
  | [], k, v => [(k, v)]
  | (k2, v2) :: rest, k, v =>
    if k2 = k then (k, v) :: rest else (k2, v2) :: nmInsert rest k v

/-- `HashMap::remove`. -/
def nmErase {α : Type} : NMap α → NodeId → NMap α
  | [], _ => []
  | (k2, v2) :: rest, k => if k2 = k then rest else (k2, v2) :: nmErase rest k

/-- Update the value at a key in place (no effect if absent). -/
def nmModify {α : Type} : NMap α → NodeId → (α → α) → NMap α
  | [], _, _ => []
  | (k2, v2) :: rest, k, f =>
    if k2 = k then (k2, f v2) :: rest else (k2, v2) :: nmModify rest k f

/-- Update every value, with access to its key. -/
def nmMapVals {α : Type} (f : NodeId → α → α) : NMap α → NMap α
  | [] => []
  | (k2, v2) :: rest => (k2, f k2 v2) :: nmMapVals f rest

theorem nmGet_insert {α : Type} (m : NMap α) (k : NodeId) (v : α) (n : NodeId) :
    nmGet (nmInsert m k v) n = if k = n then some v else nmGet m n := by
  induction m with
  | nil => simp [nmInsert, nmGet]
  | cons p rest ih =>
    obtain ⟨k2, v2⟩ := p
    by_cases h2 : k2 = k
    · subst h2
      by_cases h3 : k2 = n
      · subst h3
        simp [nmInsert, nmGet]
      · simp [nmInsert, nmGet, h3]
    · by_cases h3 : k2 = n
      · subst h3
        have h4 : k ≠ k2 := fun hc => h2 hc.symm
        simp [nmInsert, nmGet, h2, h4]
      · simp [nmInsert, nmGet, h2, h3, ih]

theorem nmGet_erase_ne {α : Type} (m : NMap α) (k : NodeId) (n : NodeId) (h : n ≠ k) :
    nmGet (nmErase m k) n = nmGet m n := by
  induction m with
  | nil => simp [nmErase]
  | cons p rest ih =>
    obtain ⟨k2, v2⟩ := p
    by_cases h2 : k2 = k
    · subst h2
      have h4 : k2 ≠ n := fun hc => h (hc.symm)
      simp [nmErase, nmGet, h4]
    · simp [nmErase, nmGet, h2, ih]

theorem nmGet_modify {α : Type} (m : NMap α) (k : NodeId) (f : α → α) (n : NodeId) :
    nmGet (nmModify m k f) n = if k = n then (nmGet m n).map f else nmGet m n := by
  induction m with
  | nil => simp [nmModify, nmGet]
  | cons p rest ih =>
    obtain ⟨k2, v2⟩ := p
    by_cases h2 : k2 = k
    · subst h2
      by_cases h3 : k2 = n
      · subst h3
        simp [nmModify, nmGet]
      · simp [nmModify, nmGet, h3]
    · by_cases h3 : k2 = n
      · subst h3
        have h4 : k ≠ k2 := fun hc => h2 hc.symm
        simp [nmModify, nmGet, h2, h4]
      · simp [nmModify, nmGet, h2, h3, ih]

theorem nmGet_mapVals {α : Type} (f : NodeId → α → α) (m : NMap α) (n : NodeId) :
    nmGet (nmMapVals f m) n = (nmGet m n).map (f n) := by
  induction m with
  | nil => simp [nmMapVals, nmGet]
  | cons p rest ih =>
    obtain ⟨k2, v2⟩ := p
    by_cases h2 : k2 = n
    · subst h2
      simp [nmMapVals, nmGet]
    · simp [nmMapVals, nmGet, h2, ih]

/-- `silica::PointerState`. -/
inductive PointerState where
  | none
  | over
  | press
deriving DecidableEq

/-- An RGBA colour, abstracted to a label (only presence matters here). -/
abbrev Color := Nat

/-- `silica::Visual`: which paint layers exist. -/
structure Visual where
  background : Option Color
  border : Option Color
  foreground : Option Color
deriving DecidableEq

/-- `silica::Node`: the registry entry of a node. -/
structure Node where
  visual : Option Visual
deriving DecidableEq

/-- `Node::can_highlight`: a node is hit-testable iff it has a `Visual`
with a background. -/
def Node.canHighlight (n : Node) : Bool :=
  ((n.visual.map fun vis => vis.background.isSome)).getD false

/-- `silica::GuiState`. -/
structure GuiState where
  highlight : Option NodeId
  pointerDown : Bool
deriving DecidableEq

/-- One node of the external flexbox layout tree (taffy, an external
collaborator modelled by the interface contract of spec section 6):
child list in insertion order, parent link, and the computed layout
(location and size), zero until a layout pass assigns it. -/
structure LayoutNode where
  children : List NodeId
  parent : Option NodeId
  locX : ℚ
  locY : ℚ
  sizeW : ℚ
  sizeH : ℚ
deriving DecidableEq

def LayoutNode.fresh : LayoutNode :=
  { children := [], parent := none, locX := 0, locY := 0, sizeW := 0, sizeH := 0 }

/-- The external layout tree (`TaffyTree`): an id allocator plus the node
slots. -/
structure LayoutTree where
  nextId : NodeId
  nodes : NMap LayoutNode
deriving DecidableEq

/-- `TaffyTree::new_leaf`. -/
def LayoutTree.newLeaf (t : LayoutTree) : LayoutTree × NodeId :=
  ({ nextId := t.nextId + 1, nodes := nmInsert t.nodes t.nextId LayoutNode.fresh }, t.nextId)

/-- `TaffyTree::add_child`: push the child at the end of the parent's
child list and set its parent link; `none` (a panic on `.unwrap()`) when
either id is invalid. -/
def LayoutTree.addChild (t : LayoutTree) (p c : NodeId) : Option LayoutTree :=
  match nmGet t.nodes p, nmGet t.nodes c with
  | some _, some _ =>
    let nodes1 := nmModify t.nodes p fun pn => { pn with children := pn.children ++ [c] }
    let nodes2 := nmModify nodes1 c fun cn => { cn with parent := some p }
    some { t with nodes := nodes2 }
  | _, _ => none

/-- `TaffyTree::remove_child`: detach the child from the parent (the
child node itself stays in the tree); `none` when the parent is invalid
or the node is not one of its children. -/
def LayoutTree.removeChild (t : LayoutTree) (p c : NodeId) : Option LayoutTree :=
  match nmGet t.nodes p with
  | none => none
  | some pn =>
    if c ∈ pn.children then
      let nodes1 := nmModify t.nodes p fun pn2 => { pn2 with children := pn2.children.erase c }
      let nodes2 := nmModify nodes1 c fun cn => { cn with parent := none }
      some { t with nodes := nodes2 }
    else none

/-- `TaffyTree::remove`: detach the node from its parent, orphan its
children (they stay in the tree), and delete its slot; `none` when the
id is invalid. -/
def LayoutTree.remove (t : LayoutTree) (n : NodeId) : Option LayoutTree :=
  match nmGet t.nodes n with
  | none => none
  | some ln =>
    let nodes :=
      match ln.parent with
      | some p => nmModify t.nodes p fun pn => { pn with children := pn.children.erase n }
      | none => t.nodes
    let nodes := ln.children.foldl
      (fun acc c => nmModify acc c fun cn => { cn with parent := none }) nodes
    some { t with nodes := nmErase nodes n }

/-- `silica::Gui`. Widget values are external behavior; the widget map
keeps only their presence. -/
structure Gui where
  state : GuiState
  layout : LayoutTree
  root : NodeId
  nodes : NMap Node
  widgets : NMap Unit
deriving DecidableEq

/-- `Gui::new`: a fresh tree whose only node is the root leaf. -/
def Gui.new : Gui :=
  { state := { highlight := none, pointerDown := false },
    layout := { nextId := 1, nodes := [(0, LayoutNode.fresh)] },
    root := 0, nodes := [], widgets := [] }

/-- `Gui::create_node` (the style only feeds the external layout engine
and is dropped from the model): allocate a layout leaf plus a registry
entry. -/
def Gui.createNode (g : Gui) (visual : Option Visual) : Gui × NodeId :=
  let p := g.layout.newLeaf
  ({ g with layout := p.1, nodes := nmInsert g.nodes p.2 { visual := visual } }, p.2)

/-- `Gui::create_widget`: `create_node` plus a widget bound to the node. -/
def Gui.createWidget (g : Gui) (visual : Option Visual) : Gui × NodeId :=
  let p := g.createNode visual
  ({ p.1 with widgets := nmInsert p.1.widgets p.2 () }, p.2)

/-- `Gui::destroy_node`: remove the layout entry, the registry entry and
the widget, and clear the highlight if it was this node. -/
def Gui.destroyNode (g : Gui) (n : NodeId) : Option Gui :=
  match g.layout.remove n with
  | none => none
  | some lt =>
    let st := if g.state.highlight = some n
      then { g.state with highlight := Option.none } else g.state
    some { g with
      layout := lt, nodes := nmErase g.nodes n, widgets := nmErase g.widgets n,
      state := st }

/-- `Gui::add_child`. -/
def Gui.addChild (g : Gui) (p c : NodeId) : Option Gui :=
  (g.layout.addChild p c).map fun lt => { g with layout := lt }

/-- `Gui::remove_child`: forward to the layout tree and clear the
highlight if it was the removed child. -/
def Gui.removeChild (g : Gui) (p c : NodeId) : Option Gui :=
  (g.layout.removeChild p c).map fun lt =>
    let st := if g.state.highlight = some c
      then { g.state with highlight := Option.none } else g.state
    { g with layout := lt, state := st }

/-- `Gui::set_visual`: overwrite the node's visual; `none` (panic) when
the node is not in the registry. The highlight is not revalidated. -/
def Gui.setVisual (g : Gui) (n : NodeId) (v : Option Visual) : Option Gui :=
  match nmGet g.nodes n with
  | none => none
  | some _ => some { g with nodes := nmModify g.nodes n fun _ => { visual := v } }

/-- `Gui::layout`: run the external flexbox engine. The engine's result
is an oracle `f` assigning each node its computed location and size. -/
def Gui.computeLayout (g : Gui) (f : NodeId → (ℚ × ℚ) × (ℚ × ℚ)) : Gui :=
  let upd : NodeId → LayoutNode → LayoutNode := fun n ln =>
    { ln with locX := (f n).1.1, locY := (f n).1.2, sizeW := (f n).2.1, sizeH := (f n).2.2 }
  { g with layout := { g.layout with nodes := nmMapVals upd g.layout.nodes } }

/-- Whether the registry makes the node hit-testable. -/
def Gui.hitTestable (g : Gui) (n : NodeId) : Bool :=
  ((nmGet g.nodes n).map Node.canHighlight).getD false

/-- `Gui::hit_highlightable_node`, with explicit recursion fuel (the Rust
recursion terminates because reachable trees are finite and acyclic):
translate into node-local space, require half-open containment in the
node's box, then try the children in reverse insertion order, then the
node itself if it can be highlighted. A dangling child id (which would
panic in Rust, and cannot occur under the registry's invariants) yields
no hit. -/
def hitNode (g : Gui) : Nat → NodeId → ℚ → ℚ → Option NodeId
  | 0, _, _, _ => none
  | fuel+1, n, x, y =>
    match nmGet g.layout.nodes n with
    | none => none
    | some ln =>
      let x2 := x - ln.locX
      let y2 := y - ln.locY
      if 0 ≤ x2 ∧ 0 ≤ y2 ∧ x2 < ln.sizeW ∧ y2 < ln.sizeH then
        match ln.children.reverse.findSome? (fun c => hitNode g fuel c x2 y2) with
        | some m => some m
        | none => if g.hitTestable n then some n else none
      else none

/-- The independent existence predicate the hit test decides: some node
of the bounds-clipped subtree below `n` is hit-testable and contains the
point (after translating coordinates along the path). -/
def containsHittable (g : Gui) : Nat → NodeId → ℚ → ℚ → Bool
  | 0, _, _, _ => false
  | fuel+1, n, x, y =>
    match nmGet g.layout.nodes n with
    | none => false
    | some ln =>
      let x2 := x - ln.locX
      let y2 := y - ln.locY
      if 0 ≤ x2 ∧ 0 ≤ y2 ∧ x2 < ln.sizeW ∧ y2 < ln.sizeH then
        g.hitTestable n || ln.children.any (fun c => containsHittable g fuel c x2 y2)
      else false

/-- The fuel `handle_pointer_motion` runs the hit test with: enough to
explore any acyclic tree of the current size. -/
def Gui.hitFuel (g : Gui) : Nat := g.layout.nodes.length + 1

/-- An observable effect of pointer dispatch: a pointer-state transition
delivered to a node's widget, or the update of the stored highlight.
Widget pointer handlers are modelled as inert observers (the Rust side
hands them `&mut Gui`; their reentrant behavior is external code). -/
inductive GuiEvent where
  | deliver (n : NodeId) (s : PointerState)
  | setHighlight (h : Option NodeId)
deriving DecidableEq

/-- `Gui::handle_pointer_motion`: recompute the topmost hit; if it
differs from the stored highlight, deliver `None` to the old highlight's
widget, `Press` (pointer down) or `Over` to the new node's widget, then
store the new highlight. -/
def Gui.handlePointerMotion (g : Gui) (x y : ℚ) : Gui × List GuiEvent :=
  let highlight := hitNode g g.hitFuel g.root x y
  if highlight = g.state.highlight then (g, [])
  else
    let evOld :=
      match g.state.highlight with
      | some n =>
        if (nmGet g.widgets n).isSome then [GuiEvent.deliver n PointerState.none] else []
      | none => []
    let evNew :=
      match highlight with
      | some n =>
        if (nmGet g.widgets n).isSome then
          [GuiEvent.deliver n
            (if g.state.pointerDown then PointerState.press else PointerState.over)]
        else []
      | none => []
    ({ g with state := { g.state with highlight := highlight } },
     evOld ++ evNew ++ [GuiEvent.setHighlight highlight])

/-- `Gui::handle_pointer_button`: a no-op on an unchanged value;
otherwise deliver `Press`/`Over` to the current highlight's widget, then
store the new button state. -/
def Gui.handlePointerButton (g : Gui) (pressed : Bool) : Gui × List GuiEvent :=
  if g.state.pointerDown = pressed then (g, [])
  else
    let ev :=
      match g.state.highlight with
      | some n =>
        if (nmGet g.widgets n).isSome then
          [GuiEvent.deliver n (if pressed then PointerState.press else PointerState.over)]
        else []
      | none => []
    ({ g with state := { g.state with pointerDown := pressed } }, ev)

/-- The states reachable from `Gui::new` by the public composition,
layout and pointer calls. -/
inductive Reachable : Gui → Prop where
  | init : Reachable Gui.new
  | createNode (g : Gui) (v : Option Visual) :
      Reachable g → Reachable (g.createNode v).1
  | createWidget (g : Gui) (v : Option Visual) :
      Reachable g → Reachable (g.createWidget v).1
  | addChild (g : Gui) (p c : NodeId) (g2 : Gui) :
      Reachable g → g.addChild p c = some g2 → Reachable g2
  | removeChild (g : Gui) (p c : NodeId) (g2 : Gui) :
      Reachable g → g.removeChild p c = some g2 → Reachable g2
  | destroyNode (g : Gui) (n : NodeId) (g2 : Gui) :
      Reachable g → g.destroyNode n = some g2 → Reachable g2
  | setVisual (g : Gui) (n : NodeId) (v : Option Visual) (g2 : Gui) :
      Reachable g → g.setVisual n v = some g2 → Reachable g2
  | computeLayout (g : Gui) (f : NodeId → (ℚ × ℚ) × (ℚ × ℚ)) :
      Reachable g → Reachable (g.computeLayout f)
  | pointerMotion (g : Gui) (x y : ℚ) :
      Reachable g → Reachable (g.handlePointerMotion x y).1
  | pointerButton (g : Gui) (b : Bool) :
      Reachable g → Reachable (g.handlePointerButton b).1

theorem findSome?_isSome_any {α β : Type} (f : α → Option β) (l : List α) :
    (l.findSome? f).isSome = l.any fun a => (f a).isSome := by
  induction l with
  | nil => simp [List.findSome?]
  | cons a l ih =>
    rw [List.findSome?_cons, List.any_cons]
    cases hfa : f a with
    | some b => simp
    | none => simp [ih]

theorem any_reverse {α : Type} (l : List α) (f : α → Bool) :
    l.reverse.any f = l.any f := by
  cases ha : l.any f with
  | true =>
    rw [List.any_eq_true] at ha
    obtain ⟨a, hm, hf⟩ := ha
    rw [List.any_eq_true]
    exact ⟨a, List.mem_reverse.mpr hm, hf⟩
  | false =>
    rw [List.any_eq_false] at ha
    rw [List.any_eq_false]
    intro a hm
    exact ha a (List.mem_reverse.mp hm)

theorem exists_of_findSome?_eq_some {α β : Type} {f : α → Option β} {b : β} :
    ∀ {l : List α}, l.findSome? f = some b → ∃ a ∈ l, f a = some b := by
  intro l
  induction l with
  | nil =>
    intro h
    exact absurd h (by simp [List.findSome?])
  | cons a l ih =>
    intro h
    rw [List.findSome?_cons] at h
    cases hfa : f a with
    | some b2 =>
      rw [hfa] at h
      have h2 : some b2 = some b := h
      refine ⟨a, by simp, ?_⟩
      rw [hfa, h2]
    | none =>
      rw [hfa] at h
      have h2 : List.findSome? f l = some b := h
      obtain ⟨a2, hm, hf⟩ := ih h2
      exact ⟨a2, by simp [hm], hf⟩

theorem hitNode_some (g : Gui) :
    ∀ (fuel : Nat) (n : NodeId) (x y : ℚ) (m : NodeId),
    hitNode g fuel n x y = some m →
    g.hitTestable m = true ∧ (nmGet g.layout.nodes m).isSome = true := by
  intro fuel
  induction fuel with
  | zero =>
    intro n x y m h
    exact absurd h (by simp [hitNode])
  | succ fuel ih =>
    intro n x y m h
    simp only [hitNode] at h
    cases hln : nmGet g.layout.nodes n with
    | none =>
      rw [hln] at h
      exact absurd h (by simp)
    | some ln =>
      rw [hln] at h
      simp only [] at h
      by_cases hin : 0 ≤ x - ln.locX ∧ 0 ≤ y - ln.locY ∧
          x - ln.locX < ln.sizeW ∧ y - ln.locY < ln.sizeH
      · rw [if_pos hin] at h
        cases hfs : ln.children.reverse.findSome?
            (fun c => hitNode g fuel c (x - ln.locX) (y - ln.locY)) with
        | some m2 =>
          rw [hfs] at h
          simp only [Option.some.injEq] at h
          subst h
          obtain ⟨c, _, hc⟩ := exists_of_findSome?_eq_some hfs
          exact ih c _ _ _ hc
        | none =>
          rw [hfs] at h
          by_cases hht : g.hitTestable n = true
          · rw [if_pos hht] at h
            simp only [Option.some.injEq] at h
            subst h
            exact ⟨hht, by rw [hln]; rfl⟩
          · rw [if_neg hht] at h
            exact absurd h (by simp)
      · rw [if_neg hin] at h
        exact absurd h (by simp)

theorem hitNode_isSome (g : Gui) :
    ∀ (fuel : Nat) (n : NodeId) (x y : ℚ),
    (hitNode g fuel n x y).isSome = containsHittable g fuel n x y := by
  intro fuel
  induction fuel with
  | zero =>
    intro n x y
    simp [hitNode, containsHittable]
  | succ fuel ih =>
    intro n x y
    simp only [hitNode, containsHittable]
    cases hln : nmGet g.layout.nodes n with
    | none => simp
    | some ln =>
      simp only []
      by_cases hin : 0 ≤ x - ln.locX ∧ 0 ≤ y - ln.locY ∧
          x - ln.locX < ln.sizeW ∧ y - ln.locY < ln.sizeH
      · rw [if_pos hin, if_pos hin]
        have hfs : (ln.children.reverse.findSome?
              (fun c => hitNode g fuel c (x - ln.locX) (y - ln.locY))).isSome
            = ln.children.any
              (fun c => containsHittable g fuel c (x - ln.locX) (y - ln.locY)) := by
          rw [findSome?_isSome_any, any_reverse]
          congr 1
          funext c
          exact ih c (x - ln.locX) (y - ln.locY)
        cases h2 : ln.children.reverse.findSome?
            (fun c => hitNode g fuel c (x - ln.locX) (y - ln.locY)) with
        | some m2 =>
          rw [h2] at hfs
          simp only [Option.isSome_some] at hfs
          rw [← hfs]
          simp
        | none =>
          rw [h2] at hfs
          simp only [Option.isSome_none] at hfs
          rw [← hfs]
          simp only [Bool.or_false]
          by_cases hht : g.hitTestable n = true
          · rw [if_pos hht, hht]
            rfl
          · rw [if_neg hht]
            simp only [Option.isSome_none]
            cases hht2 : g.hitTestable n with
            | false => rfl
            | true => exact absurd hht2 hht
      · rw [if_neg hin, if_neg hin]
        rfl

theorem nmGet_insert_isSome {α : Type} (m : NMap α) (k : NodeId) (v : α) (n : NodeId)
    (h : (nmGet m n).isSome = true) : (nmGet (nmInsert m k v) n).isSome = true := by
  rw [nmGet_insert]
  split
  · rfl
  · exact h

theorem nmGet_modify_isSome {α : Type} (m : NMap α) (k : NodeId) (f : α → α) (n : NodeId)
    (h : (nmGet m n).isSome = true) : (nmGet (nmModify m k f) n).isSome = true := by
  rw [nmGet_modify]
  split
  · cases hg : nmGet m n with
    | none => rw [hg] at h; exact absurd h (by simp)
    | some v => rfl
  · exact h

theorem nmGet_mapVals_isSome {α : Type} (f : NodeId → α → α) (m : NMap α) (n : NodeId)
    (h : (nmGet m n).isSome = true) : (nmGet (nmMapVals f m) n).isSome = true := by
  rw [nmGet_mapVals]
  cases hg : nmGet m n with
  | none => rw [hg] at h; exact absurd h (by simp)
  | some v => rfl

theorem nmGet_foldl_modify_isSome {α : Type} (fs : NodeId → α → α) (n : NodeId) :
    ∀ (l : List NodeId) (m0 : NMap α), (nmGet m0 n).isSome = true →
    (nmGet (l.foldl (fun acc c => nmModify acc c (fs c)) m0) n).isSome = true := by
  intro l
  induction l with
  | nil => intro m0 h; exact h
  | cons c cs ih =>
    intro m0 h
    simp only [List.foldl_cons]
    exact ih _ (nmGet_modify_isSome m0 c (fs c) n h)

/-- If the registry makes a node hit-testable, the node is in the registry. -/
theorem hitTestable_mem (g : Gui) (n : NodeId) (h : g.hitTestable n = true) :
    (nmGet g.nodes n).isSome = true := by
  unfold Gui.hitTestable at h
  cases hg : nmGet g.nodes n with
  | none => rw [hg] at h; exact absurd h (by simp)
  | some v => rfl

theorem layout_removeChild_nodes (t : LayoutTree) (p c : NodeId) (t2 : LayoutTree)
    (heq : t.removeChild p c = some t2) :
    t2.nodes = nmModify
      (nmModify t.nodes p fun pn2 => { pn2 with children := pn2.children.erase c })
      c fun cn => { cn with parent := none } := by
  unfold LayoutTree.removeChild at heq
  split at heq
  · exact absurd heq (by simp)
  · split at heq
    · simp only [Option.some.injEq] at heq
      subst heq
      rfl
    · exact absurd heq (by simp)

/-- Claim C1, corrected: the operations preserve *presence*, not
hit-testability. At every reachable state (`create_node`, `create_widget`,
`add_child`, `remove_child`, `destroy_node`, `set_visual`, layout
computation and the two pointer handlers, from `Gui::new`), a stored
highlight `Some n` implies `n` is present in both the node registry and
the layout tree. (It need not be hit-testable: see the counterexample,
where `set_visual` removes the background of the highlighted node without
clearing the highlight.) -/
theorem highlight_present (g : Gui) (hr : Reachable g) :
    ∀ n : NodeId, g.state.highlight = some n →
    (nmGet g.nodes n).isSome = true ∧ (nmGet g.layout.nodes n).isSome = true := by
  induction hr with
  | init =>
    intro n hh
    exact absurd hh (by simp [Gui.new])
  | createNode g v hre ih =>
    intro n hh
    obtain ⟨h1, h2⟩ := ih n hh
    exact ⟨nmGet_insert_isSome _ _ _ _ h1, nmGet_insert_isSome _ _ _ _ h2⟩
  | createWidget g v hre ih =>
    intro n hh
    obtain ⟨h1, h2⟩ := ih n hh
    exact ⟨nmGet_insert_isSome _ _ _ _ h1, nmGet_insert_isSome _ _ _ _ h2⟩
  | addChild g p c g2 hre heq ih =>
    intro n hh
    unfold Gui.addChild LayoutTree.addChild at heq
    cases hp : nmGet g.layout.nodes p with
    | none => rw [hp] at heq; exact absurd heq (by simp)
    | some pn =>
      cases hc : nmGet g.layout.nodes c with
      | none => rw [hp, hc] at heq; exact absurd heq (by simp)
      | some cn =>
        rw [hp, hc] at heq
        simp only [Option.map_some', Option.some.injEq] at heq
        subst heq
        obtain ⟨h1, h2⟩ := ih n hh
        exact ⟨h1, nmGet_modify_isSome _ _ _ _ (nmGet_modify_isSome _ _ _ _ h2)⟩
  | removeChild g p c g2 hre heq ih =>
    intro n hh
    unfold Gui.removeChild at heq
    cases hrc : g.layout.removeChild p c with
    | none =>
      rw [hrc] at heq
      exact absurd heq (by simp)
    | some lt =>
      rw [hrc] at heq
      simp only [Option.map_some', Option.some.injEq] at heq
      subst heq
      simp only [] at hh
      by_cases hold : g.state.highlight = some c
      · rw [if_pos hold] at hh
        exact absurd hh (by simp)
      · rw [if_neg hold] at hh
        obtain ⟨h1, h2⟩ := ih n hh
        refine ⟨h1, ?_⟩
        show (nmGet lt.nodes n).isSome = true
        rw [layout_removeChild_nodes g.layout p c lt hrc]
        exact nmGet_modify_isSome _ _ _ _ (nmGet_modify_isSome _ _ _ _ h2)
  | destroyNode g d g2 hre heq ih =>
    intro n hh
    unfold Gui.destroyNode LayoutTree.remove at heq
    cases hd : nmGet g.layout.nodes d with
    | none => rw [hd] at heq; exact absurd heq (by simp)
    | some dn =>
      rw [hd] at heq
      simp only [Option.some.injEq] at heq
      subst heq
      simp only [] at hh
      by_cases hold : g.state.highlight = some d
      · rw [if_pos hold] at hh
        exact absurd hh (by simp)
      · rw [if_neg hold] at hh
        obtain ⟨h1, h2⟩ := ih n hh
        have hnd : n ≠ d := by
          intro hc
          subst hc
          exact hold hh
        refine ⟨by rw [nmGet_erase_ne _ _ _ hnd]; exact h1, ?_⟩
        rw [nmGet_erase_ne _ _ _ hnd]
        apply nmGet_foldl_modify_isSome
        cases hpar : dn.parent with
        | none => exact h2
        | some pp => exact nmGet_modify_isSome _ _ _ _ h2
  | setVisual g m v g2 hre heq ih =>
    intro n hh
    unfold Gui.setVisual at heq
    cases hm : nmGet g.nodes m with
    | none => rw [hm] at heq; exact absurd heq (by simp)
    | some _ =>
      rw [hm] at heq
      simp only [Option.some.injEq] at heq
      subst heq
      obtain ⟨h1, h2⟩ := ih n hh
      exact ⟨nmGet_modify_isSome _ _ _ _ h1, h2⟩
  | computeLayout g f hre ih =>
    intro n hh
    obtain ⟨h1, h2⟩ := ih n hh
    exact ⟨h1, nmGet_mapVals_isSome _ _ _ h2⟩
  | pointerMotion g x y hre ih =>
    intro n hh
    unfold Gui.handlePointerMotion at hh
    by_cases heq : hitNode g g.hitFuel g.root x y = g.state.highlight
    · rw [if_pos heq] at hh
      unfold Gui.handlePointerMotion
      rw [if_pos heq]
      exact ih n hh
    · rw [if_neg heq] at hh
      simp only [] at hh
      obtain ⟨hht, hmem⟩ := hitNode_some g g.hitFuel g.root x y n hh
      unfold Gui.handlePointerMotion
      rw [if_neg heq]
      exact ⟨hitTestable_mem g n hht, hmem⟩
  | pointerButton g b hre ih =>
    intro n hh
    unfold Gui.handlePointerButton at hh
    by_cases heq : g.state.pointerDown = b
    · rw [if_pos heq] at hh
      unfold Gui.handlePointerButton
      rw [if_pos heq]
      exact ih n hh
    · rw [if_neg heq] at hh
      simp only [] at hh
      unfold Gui.handlePointerButton
      rw [if_neg heq]
      exact ih n hh

/-- Claim C2. After `handle_pointer_motion(x, y)`: the stored highlight
equals the result of `hit_highlightable_node` from the root — the
recursive search that translates into child-local space by subtracting
the layout offset, uses the half-open containment test, and tries
children in reverse insertion order before the node itself; every node
it returns is hit-testable (and in the layout tree); and it returns a
node exactly when some hit-testable node of the bounds-clipped tree
contains the point — so if none does, the stored highlight is `None`. -/
theorem pointer_motion_highlight (g : Gui) (x y : ℚ) :
    (g.handlePointerMotion x y).1.state.highlight = hitNode g g.hitFuel g.root x y ∧
    (∀ m, hitNode g g.hitFuel g.root x y = some m →
      g.hitTestable m = true ∧ (nmGet g.layout.nodes m).isSome = true) ∧
    (hitNode g g.hitFuel g.root x y).isSome = containsHittable g g.hitFuel g.root x y := by
  refine ⟨?_, fun m h => hitNode_some g g.hitFuel g.root x y m h,
    hitNode_isSome g g.hitFuel g.root x y⟩
  unfold Gui.handlePointerMotion
  by_cases h : hitNode g g.hitFuel g.root x y = g.state.highlight
  · rw [if_pos h]
    exact h.symm
  · rw [if_neg h]

/-- Claim C9. When the recomputed topmost node equals the stored
highlight (including both `None`), `handle_pointer_motion` is a complete
no-op: the state (highlight and pointer-down flag) is unchanged and no
widget receives a delivery. -/
theorem pointer_motion_noop (g : Gui) (x y : ℚ)
    (h : hitNode g g.hitFuel g.root x y = g.state.highlight) :
    g.handlePointerMotion x y = (g, []) := by
  unfold Gui.handlePointerMotion
  rw [if_pos h]

/-- Claim C5. When the recomputed topmost node differs from the stored
highlight, the effects happen in this order: `None` to the old
highlight's widget (if one exists), then `Press` (pointer down) or
`Over` to the new node's widget (if one exists), and only then the
highlight update; the pointer-down flag is unchanged. -/
theorem pointer_motion_dispatch (g : Gui) (x y : ℚ)
    (hne : hitNode g g.hitFuel g.root x y ≠ g.state.highlight) :
    (g.handlePointerMotion x y).2 =
      (match g.state.highlight with
        | some n =>
          if (nmGet g.widgets n).isSome then [GuiEvent.deliver n PointerState.none] else []
        | none => []) ++
      (match hitNode g g.hitFuel g.root x y with
        | some n =>
          if (nmGet g.widgets n).isSome then
            [GuiEvent.deliver n
              (if g.state.pointerDown then PointerState.press else PointerState.over)]
          else []
        | none => []) ++
      [GuiEvent.setHighlight (hitNode g g.hitFuel g.root x y)] ∧
    (g.handlePointerMotion x y).1.state.highlight = hitNode g g.hitFuel g.root x y ∧
    (g.handlePointerMotion x y).1.state.pointerDown = g.state.pointerDown := by
  unfold Gui.handlePointerMotion
  rw [if_neg hne]
  exact ⟨rfl, rfl, rfl⟩

theorem hitNode_step (g : Gui) (fuel : Nat) (n : NodeId) (x y : ℚ)
    (cs : List NodeId) (pa : Option NodeId) (lx ly sw sh : ℚ)
    (hln : nmGet g.layout.nodes n = some ⟨cs, pa, lx, ly, sw, sh⟩)
    (hin : 0 ≤ x - lx ∧ 0 ≤ y - ly ∧ x - lx < sw ∧ y - ly < sh) :
    hitNode g (fuel+1) n x y =
      match cs.reverse.findSome? (fun c => hitNode g fuel c (x - lx) (y - ly)) with
      | some m => some m
      | none => if g.hitTestable n then some n else none := by
  simp only [hitNode, hln]
  rw [if_pos hin]

theorem hitNode_step_out (g : Gui) (fuel : Nat) (n : NodeId) (x y : ℚ)
    (cs : List NodeId) (pa : Option NodeId) (lx ly sw sh : ℚ)
    (hln : nmGet g.layout.nodes n = some ⟨cs, pa, lx, ly, sw, sh⟩)
    (hout : ¬ (0 ≤ x - lx ∧ 0 ≤ y - ly ∧ x - lx < sw ∧ y - ly < sh)) :
    hitNode g (fuel+1) n x y = none := by
  simp only [hitNode, hln]
  rw [if_neg hout]

/-- A visual with a background: makes its node hit-testable. -/
def demoVisual : Visual := { background := some 0, border := none, foreground := none }

/-- A layout result: the root 100×100 at the origin, every other node
50×50 at the origin. -/
def demoAssign : NodeId → (ℚ × ℚ) × (ℚ × ℚ) := fun n =>
  if n = 0 then ((0, 0), (100, 100)) else ((0, 0), (50, 50))

/-- `Gui::new` after `create_node` of a background visual (node 1). -/
def demoGui0 : Gui :=
  { state := { highlight := Option.none, pointerDown := false },
    layout := { nextId := 2, nodes := [(0, LayoutNode.fresh), (1, LayoutNode.fresh)] },
    root := 0, nodes := [(1, { visual := some demoVisual })], widgets := [] }

theorem demoGui0_eq : (Gui.new.createNode (some demoVisual)).1 = demoGui0 := rfl

/-- ... after `add_child(root, 1)`. -/
def demoGui1 : Gui :=
  { demoGui0 with layout := { nextId := 2, nodes :=
      [(0, { LayoutNode.fresh with children := [1] }),
       (1, { LayoutNode.fresh with parent := some 0 })] } }

theorem demoGui1_eq : demoGui0.addChild 0 1 = some demoGui1 := rfl

/-- ... after the layout pass. -/
def demoGui2 : Gui :=
  { demoGui1 with layout := { nextId := 2, nodes :=
      [(0, { children := [1], parent := Option.none, locX := 0, locY := 0,
             sizeW := 100, sizeH := 100 }),
       (1, { children := [], parent := some 0, locX := 0, locY := 0,
             sizeW := 50, sizeH := 50 })] } }

theorem demoGui2_eq : demoGui1.computeLayout demoAssign = demoGui2 := rfl

theorem demoGui2_hit : hitNode demoGui2 demoGui2.hitFuel demoGui2.root 10 10 = some 1 := by
  show hitNode demoGui2 (2 + 1) 0 10 10 = some 1
  rw [hitNode_step demoGui2 2 0 10 10 [1] Option.none 0 0 100 100 rfl (by norm_num)]
  have h1 : hitNode demoGui2 2 1 (10 - 0) (10 - 0) = some 1 := by
    show hitNode demoGui2 (1 + 1) 1 (10 - 0) (10 - 0) = some 1
    rw [hitNode_step demoGui2 1 1 (10 - 0) (10 - 0) [] (some 0) 0 0 50 50 rfl (by norm_num)]
    show (if demoGui2.hitTestable 1 = true then some 1 else none) = some 1
    rw [if_pos (show demoGui2.hitTestable 1 = true from rfl)]
  have hf : ([1] : List NodeId).reverse.findSome?
      (fun c => hitNode demoGui2 2 c (10 - 0) (10 - 0)) = some 1 := by
    show ([1] : List NodeId).findSome? (fun c => hitNode demoGui2 2 c (10 - 0) (10 - 0)) = some 1
    simp only [List.findSome?_cons, h1]
  rw [hf]

/-- ... after `handle_pointer_motion(10, 10)`: node 1 is highlighted. -/
def demoGui3 : Gui :=
  { demoGui2 with state := { highlight := some 1, pointerDown := false } }

theorem demoGui3_eq : demoGui2.handlePointerMotion 10 10 =
    (demoGui3, [GuiEvent.setHighlight (some 1)]) := by
  unfold Gui.handlePointerMotion
  rw [demoGui2_hit]
  rw [if_neg (by decide : ¬ (some 1 = demoGui2.state.highlight))]
  rfl

theorem demoGui3_reachable : Reachable demoGui3 := by
  have h0 := Reachable.createNode Gui.new (some demoVisual) Reachable.init
  rw [demoGui0_eq] at h0
  have h1 := Reachable.addChild demoGui0 0 1 demoGui1 h0 demoGui1_eq
  have h2 := Reachable.computeLayout demoGui1 demoAssign h1
  rw [demoGui2_eq] at h2
  have h3 := Reachable.pointerMotion demoGui2 10 10 h2
  rw [demoGui3_eq] at h3
  exact h3

/-- ... after `set_visual(1, None)`: still highlighted, no longer
hit-testable. -/
def demoGui4 : Gui :=
  { demoGui3 with nodes := [(1, { visual := Option.none })] }

theorem demoGui4_eq : demoGui3.setVisual 1 Option.none = some demoGui4 := rfl

/-- Counterexample to claim C1 as stated: a real run — create a
background node, attach it, lay out, move the pointer over it (so it is
highlighted), then `set_visual(node, None)` — reaches a state where the
stored highlight is `Some 1` but node 1 is not hit-testable: `set_visual`
does not revalidate the highlight. -/
theorem highlight_not_hit_testable :
    Reachable demoGui4 ∧ demoGui4.state.highlight = some 1 ∧
    demoGui4.hitTestable 1 = false := by
  refine ⟨?_, rfl, rfl⟩
  exact Reachable.setVisual demoGui3 1 Option.none demoGui4 demoGui3_reachable demoGui4_eq

/-- Witness for `highlight_present`: the highlighted state reached by the
run above satisfies the presence invariant. -/
theorem highlight_present_witness :
    demoGui3.state.highlight = some 1 ∧
    ((nmGet demoGui3.nodes 1).isSome = true ∧
      (nmGet demoGui3.layout.nodes 1).isSome = true) :=
  ⟨rfl, highlight_present demoGui3 demoGui3_reachable 1 rfl⟩

/-- Witness for `pointer_motion_noop`: pointer motion over empty space on
a fresh root is a no-op. -/
theorem pointer_motion_noop_witness :
    Gui.new.handlePointerMotion 0 0 = (Gui.new, []) :=
  pointer_motion_noop Gui.new 0 0 (by
    show hitNode Gui.new (1 + 1) 0 0 0 = Gui.new.state.highlight
    rw [hitNode_step_out Gui.new 1 0 0 0 [] Option.none 0 0 0 0 rfl (by norm_num)]
    rfl)

/-- Witness for `pointer_motion_dispatch`: at `demoGui2` the hit (node 1)
differs from the stored highlight (`None`), and the highlight is updated
to it. -/
theorem pointer_motion_dispatch_witness :
    (demoGui2.handlePointerMotion 10 10).1.state.highlight =
      hitNode demoGui2 demoGui2.hitFuel demoGui2.root 10 10 :=
  (pointer_motion_dispatch demoGui2 10 10 (by
    rw [demoGui2_hit]
    decide)).2.1

end Silica
